import Mathlib

/-!
Verification of the markdown parsing core (`src/parser.rs`, data model in
`src/data.rs`) of the thinknaut repository, shallowly embedded in Lean 4.

The input buffer `chs : &str` is modelled as a `List Char`; accumulated output
strings are Lean `String`s built by the same push/append operations the source
uses. Every loop and every recursive call of the source is driven by an
explicit `fuel : Nat`; running out of fuel yields `PRes.nofuel`, a reachable
`unwrap` failure yields `PRes.panic`, and normal completion `PRes.ok`.
Network resolution (`get_title`, `get_ogp_info`) is an external collaborator
and is passed in as a `Resolver`.
-/

namespace Thinknaut

/-- Inline primitive nodes (`Prim` in the crate's data model; `parse_link`
builds `Link.text` from sub-primaries, so links never nest). -/
inductive Prim : Type where
  | link (text : List Prim) (url : String)
  | math (math : String)
  | code (code : String)
  | text (text : String)

/-- Inline span nodes (`Span` in `src/data.rs`): emphasis wrappers over
primitives. -/
inductive Span : Type where
  | primElem (p : Prim)
  | bold (text : List Span)
  | ital (text : List Span)

mutual
/-- Nested list node (`List` in `src/data.rs`). -/
inductive MList : Type where
  | mk (ordered : Bool) (items : List MListItem)
/-- List item (`ListItem` in `src/data.rs`): one line of spans plus a child
list. -/
inductive MListItem : Type where
  | mk (spans : List Span) (list : MList)
end

def MList.ordered : MList → Bool
  | .mk o _ => o

def MList.items : MList → List MListItem
  | .mk _ i => i

def MListItem.spans : MListItem → List Span
  | .mk s _ => s

def MListItem.list : MListItem → MList
  | .mk _ l => l

/-- Block-level nodes (`Block` in `src/data.rs`, fields as consumed and
produced by `src/parser.rs`). -/
inductive Block : Type where
  | header (prims : List Prim) (level : Nat) (id : String)
  | blockquote (lines : List (List Span))
  | listElement (l : MList)
  | image (title : List Prim) (url : String)
  | linkCard (title : String) (image : Option String) (url : String)
      (description : Option String) (siteName : Option String)
  | mathBlock (math : String)
  | codeBlock (lang : String) (code : String)
  | table (head : List (List String)) (body : List (List String))
  | paragraph (spans : List Span)

/-- Result of a fuelled parsing step: success, a reachable panic
(`Option::unwrap` on `None`), or fuel exhaustion. -/
inductive PRes (α : Type) : Type where
  | ok (a : α)
  | panic
  | nofuel

def PRes.bind {α β : Type} : PRes α → (α → PRes β) → PRes β
  | .ok a, f => f a
  | .panic, _ => .panic
  | .nofuel, _ => .nofuel

/-- The link-metadata resolver collaborator (`get_title` / `get_ogp_info` in
`src/parser.rs`; spec section 6). -/
structure Resolver : Type where
  title : String → String
  ogp : String → String × Option String × Option String × Option String

def emptyResolver : Resolver :=
  { title := fun _ => "", ogp := fun _ => ("", none, none, none) }

/-! ## Scanner primitives (`Parser::next_char` etc., src/parser.rs:395-455) -/

/-- Rust `str::starts_with` on the char-list buffer. -/
def startsWith (p chs : List Char) : Bool :=
  List.isPrefixOf p chs

/-- `Parser::starts_with_next` (src/parser.rs:436-443): `strip_prefix`,
advancing past the matched literal. -/
def startsWithNext (p chs : List Char) : Bool × List Char :=
  if List.isPrefixOf p chs then (true, chs.drop p.length) else (false, chs)

/-- `Parser::starts_with_newline_next` (src/parser.rs:445-455). -/
def startsWithNewlineNext (chs : List Char) : Bool × List Char :=
  let r := startsWithNext ['\n'] chs
  if r.1 then r else
  let r2 := startsWithNext ['\r', '\n'] chs
  if r2.1 then r2 else (false, chs)

/-- `Parser::next_char` (src/parser.rs:395-403). -/
def nextChar : List Char → Option Char × List Char
  | [] => (none, [])
  | c :: rest => (some c, rest)

/-- `Parser::next_char_until` (src/parser.rs:405-417): if the buffer starts
with the terminator it is consumed and `none` is yielded, otherwise one
character is consumed and yielded. -/
def nextCharUntil (u chs : List Char) : Option Char × List Char :=
  if List.isPrefixOf u chs then (none, chs.drop u.length)
  else
    match chs with
    | [] => (none, [])
    | c :: rest => (some c, rest)

/-- `Parser::next_char_until_newline` (src/parser.rs:419-434). -/
def nextCharUntilNewline (chs : List Char) : Option Char × List Char :=
  match chs with
  | '\n' :: rest => (none, rest)
  | '\r' :: '\n' :: rest => (none, rest)
  | [] => (none, [])
  | c :: rest => (some c, rest)

/-- `Parser::escape` (src/parser.rs:457-463). -/
def escape (c : Char) : String :=
  match c with
  | '<' => "&lt;"
  | '>' => "&gt;"
  | _ => String.singleton c

/-! ## Primitive parser (src/parser.rs:318-393) -/

/-- Terminating prefixes of `parse_text` (src/parser.rs:384). -/
def textStops : List (List Char) :=
  [['*', '*'], ['_', '_'], ['['], [']'], ['$'], ['`'], ['\n'], ['\r', '\n']]

/-- Loop body of `parse_text` (src/parser.rs:381-393): accumulate escaped
characters until a stop prefix or end of input. -/
def parseTextGo (fuel : Nat) (chs : List Char) (acc : String) :
    PRes (Prim × List Char) :=
  match fuel with
  | 0 => .nofuel
  | fuel + 1 =>
    if textStops.any (fun p => startsWith p chs) then .ok (.text acc, chs)
    else
      match nextCharUntilNewline chs with
      | (some c, chs') => parseTextGo fuel chs' (acc ++ escape c)
      | (none, chs') => .ok (.text acc, chs')

def parseText (fuel : Nat) (chs : List Char) : PRes (Prim × List Char) :=
  parseTextGo fuel chs ""

/-- Loop of `parse_math` (src/parser.rs:365-371). -/
def parseMathGo (fuel : Nat) (chs : List Char) (acc : String) :
    PRes (Prim × List Char) :=
  match fuel with
  | 0 => .nofuel
  | fuel + 1 =>
    match nextCharUntil ['$'] chs with
    | (some c, chs') => parseMathGo fuel chs' (acc ++ escape c)
    | (none, chs') => .ok (.math acc, chs')

/-- Loop of `parse_code` (src/parser.rs:373-379). -/
def parseCodeGo (fuel : Nat) (chs : List Char) (acc : String) :
    PRes (Prim × List Char) :=
  match fuel with
  | 0 => .nofuel
  | fuel + 1 =>
    match nextCharUntil ['`'] chs with
    | (some c, chs') => parseCodeGo fuel chs' (acc ++ escape c)
    | (none, chs') => .ok (.code acc, chs')

/-- `Parser::parse_subprimary` (src/parser.rs:350-363). -/
def parseSubprimary (fuel : Nat) (chs : List Char) : PRes (Prim × List Char) :=
  let m := startsWithNext ['$'] chs
  if m.1 then parseMathGo fuel m.2 "" else
  let c := startsWithNext ['`'] chs
  if c.1 then parseCodeGo fuel c.2 "" else
  parseText fuel chs

/-- Link-text loop of `parse_link` (src/parser.rs:331-333): sub-primaries
until the literal `](` is consumed. -/
def linkTextLoop (fuel : Nat) (chs : List Char) (acc : List Prim) :
    PRes (List Prim × List Char) :=
  match fuel with
  | 0 => .nofuel
  | fuel + 1 =>
    let r := startsWithNext [']', '('] chs
    if r.1 then .ok (acc, r.2)
    else
      PRes.bind (parseSubprimary fuel chs) fun pr =>
        linkTextLoop fuel pr.2 (acc ++ [pr.1])

/-- URL loop of `parse_link` (src/parser.rs:335-341): raw characters until a
`)` is consumed, bailing out at a line ending or end of input. -/
def linkUrlLoop (fuel : Nat) (chs : List Char) (acc : String) :
    PRes (String × List Char) :=
  match fuel with
  | 0 => .nofuel
  | fuel + 1 =>
    let r := startsWithNext [')'] chs
    if r.1 then .ok (acc, r.2)
    else
      match nextCharUntilNewline chs with
      | (some c, chs') => linkUrlLoop fuel chs' (acc.push c)
      | (none, chs') => .ok (acc, chs')

/-- `Parser::parse_link` (src/parser.rs:327-348), invoked after the leading
`[` has been consumed; empty link text is replaced by a single `Text`
primitive holding the resolver's title for the URL. -/
def parseLink (R : Resolver) (fuel : Nat) (chs : List Char) :
    PRes (Prim × List Char) :=
  PRes.bind (linkTextLoop fuel chs []) fun tr =>
  PRes.bind (linkUrlLoop fuel tr.2 "") fun ur =>
  .ok (.link (if tr.1.isEmpty then [.text (R.title ur.1)] else tr.1) ur.1,
       ur.2)

/-- `Parser::parse_primary` (src/parser.rs:318-325). -/
def parsePrimary (R : Resolver) (fuel : Nat) (chs : List Char) :
    PRes (Prim × List Char) :=
  let r := startsWithNext ['['] chs
  if r.1 then parseLink R fuel r.2 else parseSubprimary fuel chs

/-! ## Span parser (src/parser.rs:273-316) -/

mutual
/-- `Parser::parse_bold` (src/parser.rs:294-304). -/
def parseBold (R : Resolver) (fuel : Nat) (chs : List Char) :
    PRes (Span × List Char) :=
  match fuel with
  | 0 => .nofuel
  | fuel + 1 =>
    let r := startsWithNext ['*', '*'] chs
    if r.1 then boldLoop R fuel r.2 []
    else
      PRes.bind (parsePrimary R fuel chs) fun pr => .ok (.primElem pr.1, pr.2)

/-- Body loop of `parse_bold` (src/parser.rs:297-299): italic-or-primary
spans until the closing `**` is consumed. -/
def boldLoop (R : Resolver) (fuel : Nat) (chs : List Char) (acc : List Span) :
    PRes (Span × List Char) :=
  match fuel with
  | 0 => .nofuel
  | fuel + 1 =>
    let r := startsWithNext ['*', '*'] chs
    if r.1 then .ok (.bold acc, r.2)
    else
      PRes.bind (parseItalic R fuel chs) fun pr =>
        boldLoop R fuel pr.2 (acc ++ [pr.1])

/-- `Parser::parse_italic` (src/parser.rs:306-316). -/
def parseItalic (R : Resolver) (fuel : Nat) (chs : List Char) :
    PRes (Span × List Char) :=
  match fuel with
  | 0 => .nofuel
  | fuel + 1 =>
    let r := startsWithNext ['_', '_'] chs
    if r.1 then italLoop R fuel r.2 []
    else
      PRes.bind (parsePrimary R fuel chs) fun pr => .ok (.primElem pr.1, pr.2)

/-- Body loop of `parse_italic` (src/parser.rs:309-311). -/
def italLoop (R : Resolver) (fuel : Nat) (chs : List Char) (acc : List Span) :
    PRes (Span × List Char) :=
  match fuel with
  | 0 => .nofuel
  | fuel + 1 =>
    let r := startsWithNext ['_', '_'] chs
    if r.1 then .ok (.ital acc, r.2)
    else
      PRes.bind (parseBold R fuel chs) fun pr =>
        italLoop R fuel pr.2 (acc ++ [pr.1])
end

/-- Loop of `Parser::parse_spans` (src/parser.rs:273-292): spans until end of
input or a consumed line ending. -/
def parseSpansGo (R : Resolver) (fuel : Nat) (chs : List Char)
    (acc : List Span) : PRes (List Span × List Char) :=
  match fuel with
  | 0 => .nofuel
  | fuel + 1 =>
    if chs.isEmpty then .ok (acc, chs)
    else
      let nl := startsWithNewlineNext chs
      if nl.1 then .ok (acc, nl.2)
      else if startsWith ['*', '*'] chs then
        PRes.bind (parseBold R fuel chs) fun pr =>
          parseSpansGo R fuel pr.2 (acc ++ [pr.1])
      else if startsWith ['_', '_'] chs then
        PRes.bind (parseItalic R fuel chs) fun pr =>
          parseSpansGo R fuel pr.2 (acc ++ [pr.1])
      else
        PRes.bind (parsePrimary R fuel chs) fun pr =>
          parseSpansGo R fuel pr.2 (acc ++ [.primElem pr.1])

def parseSpans (R : Resolver) (fuel : Nat) (chs : List Char) :
    PRes (List Span × List Char) :=
  parseSpansGo R fuel chs []

/-! ## Document assembler state and header machinery (src/parser.rs:17-148) -/

/-- Parser state (`struct Parser` in src/parser.rs:17-23): the remaining
buffer, the heading-ID registry, the document title, the growing TOC tree and
the collected content blocks. -/
structure PState : Type where
  chs : List Char
  headers : List String
  title : String
  toc : MList
  content : List Block

/-- Modelled from the spec: the heading-ID registry is the crate's
`MultiSet<String>` (module `multiset`, not present under src/). Spec section 3
describes it as "a mapping from candidate identifier (derived from heading
text) to count of prior uses", and section 4.4 as "looks up `id` in the
heading-ID registry; if already used `n` times, appends `-n` ..., then
increments the registry count". `insert` therefore returns the number of
prior uses of the element and then records one more use; the registry is kept
as the list of inserted elements. -/
def multisetInsert (m : List String) (s : String) : Nat × List String :=
  (m.count s, s :: m)

/-- Heading-ID deduplication step (src/parser.rs:133-136): insert the
candidate id into the registry and suffix `-count` when it was already
used. -/
def dedupStep (m : List String) (base : String) : String × List String :=
  let r := multisetInsert m base
  (if r.1 > 0 then base ++ "-" ++ Nat.repr r.1 else base, r.2)

/-- TOC flattening of the heading primitives (src/parser.rs:109-118): a
top-level `Link` is replaced by its inner text list. -/
def headerTocOf : List Prim → List Prim
  | [] => []
  | .link t _ :: rest => t ++ headerTocOf rest
  | p :: rest => p :: headerTocOf rest

/-- Heading-id derivation (src/parser.rs:120-127): concatenate the literal
content of every `Math`/`Code`/`Text` primitive. -/
def headerIdOf : List Prim → String
  | [] => ""
  | .math m :: rest => m ++ headerIdOf rest
  | .code c :: rest => c ++ headerIdOf rest
  | .text t :: rest => t ++ headerIdOf rest
  | _ :: rest => headerIdOf rest

/-- TOC descent and push (src/parser.rs:138-146) for `n = level - 2` steps:
descend through the last item's child list at each level and append the new
entry; the source's `last_mut().unwrap()` on an empty item list is a panic. -/
def tocInsertGo : MList → Nat → MListItem → PRes MList
  | l, 0, item => .ok (.mk l.ordered (l.items ++ [item]))
  | l, n + 1, item =>
    match l.items.getLast? with
    | none => .panic
    | some last =>
      match tocInsertGo last.list n item with
      | .ok sub => .ok (.mk l.ordered (l.items.dropLast ++ [.mk last.spans sub]))
      | .panic => .panic
      | .nofuel => .nofuel

/-- TOC insertion for a heading of the given level (src/parser.rs:138-146:
`for _ in 2..level`). -/
def tocInsert (l : MList) (level : Nat) (item : MListItem) : PRes MList :=
  tocInsertGo l (level - 2) item

/-- Header-content loop (src/parser.rs:106-108): primaries until a line
ending is consumed. -/
def parseHeaderCont (R : Resolver) (fuel : Nat) (chs : List Char)
    (acc : List Prim) : PRes (List Prim × List Char) :=
  match fuel with
  | 0 => .nofuel
  | fuel + 1 =>
    let nl := startsWithNewlineNext chs
    if nl.1 then .ok (acc, nl.2)
    else
      PRes.bind (parsePrimary R fuel chs) fun pr =>
        parseHeaderCont R fuel pr.2 (acc ++ [pr.1])

/-- `Parser::parse_header` (src/parser.rs:101-148). -/
def parseHeader (R : Resolver) (fuel : Nat) (level : Nat) (st : PState) :
    PRes (Block × PState) :=
  PRes.bind (parseHeaderCont R fuel st.chs []) fun cr =>
    let headerToc := headerTocOf cr.1
    let headerId := headerIdOf headerToc
    if level = 1 then
      .ok (.header cr.1 1 headerId, { st with chs := cr.2, title := headerId })
    else
      let d := dedupStep st.headers headerId
      match tocInsert st.toc level
          (.mk [.primElem (.link headerToc ("#" ++ d.1))] (.mk true [])) with
      | .ok toc' =>
        .ok (.header cr.1 level d.1,
             { st with chs := cr.2, headers := d.2, toc := toc' })
      | .panic => .panic
      | .nofuel => .nofuel

/-! ## Remaining block parsers (src/parser.rs:150-271) -/

/-- Loop of `Parser::parse_blockquote` (src/parser.rs:150-156). -/
def parseBlockquoteGo (R : Resolver) (fuel : Nat) (chs : List Char)
    (acc : List (List Span)) : PRes (List (List Span) × List Char) :=
  match fuel with
  | 0 => .nofuel
  | fuel + 1 =>
    let r := startsWithNext ['>', ' '] chs
    if r.1 then
      PRes.bind (parseSpans R fuel r.2) fun sr =>
        parseBlockquoteGo R fuel sr.2 (acc ++ [sr.1])
    else .ok (acc, chs)

/-- Leading-space count of `parse_list` (src/parser.rs:162-167), on a copy of
the buffer. -/
def countIndent : List Char → Nat × List Char
  | [] => (0, [])
  | c :: rest =>
    if c = ' ' then
      let r := countIndent rest
      (r.1 + 1, r.2)
    else (0, c :: rest)

/-- `Parser::parse_list` (src/parser.rs:158-193): `ordered` and the item
accumulator are the loop-local `let mut` variables; a committed indentation
with no list marker drops the spaces and breaks. -/
def parseListGo (R : Resolver) (fuel : Nat) (minIndent : Nat)
    (chs : List Char) (ordered : Bool) (acc : List MListItem) :
    PRes (MList × List Char) :=
  match fuel with
  | 0 => .nofuel
  | fuel + 1 =>
    if chs.isEmpty then .ok (.mk ordered acc, chs)
    else
      let ind := countIndent chs
      if minIndent ≤ ind.1 then
        let rm := startsWithNext ['-', ' '] ind.2
        if rm.1 then
          PRes.bind (parseSpans R fuel rm.2) fun sr =>
          PRes.bind (parseListGo R fuel (ind.1 + 1) sr.2 false []) fun lr =>
            parseListGo R fuel minIndent lr.2 false
              (acc ++ [.mk sr.1 lr.1])
        else
          let rp := startsWithNext ['+', ' '] ind.2
          if rp.1 then
            PRes.bind (parseSpans R fuel rp.2) fun sr =>
            PRes.bind (parseListGo R fuel (ind.1 + 1) sr.2 false []) fun lr =>
              parseListGo R fuel minIndent lr.2 true
                (acc ++ [.mk sr.1 lr.1])
          else .ok (.mk ordered acc, ind.2)
      else .ok (.mk ordered acc, chs)

def parseList (R : Resolver) (fuel : Nat) (minIndent : Nat)
    (chs : List Char) : PRes (MList × List Char) :=
  parseListGo R fuel minIndent chs false []

/-- Embed-text loop (src/parser.rs:198-200): primaries until `](` is
consumed. -/
def embedTextLoop (R : Resolver) (fuel : Nat) (chs : List Char)
    (acc : List Prim) : PRes (List Prim × List Char) :=
  match fuel with
  | 0 => .nofuel
  | fuel + 1 =>
    let r := startsWithNext [']', '('] chs
    if r.1 then .ok (acc, r.2)
    else
      PRes.bind (parsePrimary R fuel chs) fun pr =>
        embedTextLoop R fuel pr.2 (acc ++ [pr.1])

/-- Embed-URL loop (src/parser.rs:201-203): raw characters via
`next_char_until(")")`. -/
def embedUrlLoop (fuel : Nat) (chs : List Char) (acc : String) :
    PRes (String × List Char) :=
  match fuel with
  | 0 => .nofuel
  | fuel + 1 =>
    match nextCharUntil [')'] chs with
    | (some c, chs') => embedUrlLoop fuel chs' (acc.push c)
    | (none, chs') => .ok (acc, chs')

def strEndsWith (s suf : String) : Bool :=
  List.isSuffixOf suf.data s.data

/-- `Parser::parse_embed` (src/parser.rs:195-212), after `@[` was consumed. -/
def parseEmbed (R : Resolver) (fuel : Nat) (chs : List Char) :
    PRes (Block × List Char) :=
  PRes.bind (embedTextLoop R fuel chs []) fun tr =>
  PRes.bind (embedUrlLoop fuel tr.2 "") fun ur =>
  if strEndsWith ur.1 ".png" || strEndsWith ur.1 ".jpg" then
    .ok (.image tr.1 ur.1, ur.2)
  else
    match R.ogp ur.1 with
    | (t, i, d, s) => .ok (.linkCard t i ur.1 d s, ur.2)

/-- Loop of `Parser::parse_math_block` (src/parser.rs:214-220), after `$$`
was consumed. -/
def mathBlockLoop (fuel : Nat) (chs : List Char) (acc : String) :
    PRes (Block × List Char) :=
  match fuel with
  | 0 => .nofuel
  | fuel + 1 =>
    match nextCharUntil ['$', '$'] chs with
    | (some c, chs') => mathBlockLoop fuel chs' (acc ++ escape c)
    | (none, chs') => .ok (.mathBlock acc, chs')

/-- Language-tag loop of `parse_code_block` (src/parser.rs:223-226). -/
def codeLangLoop (fuel : Nat) (chs : List Char) (acc : String) :
    PRes (String × List Char) :=
  match fuel with
  | 0 => .nofuel
  | fuel + 1 =>
    match nextCharUntilNewline chs with
    | (some c, chs') => codeLangLoop fuel chs' (acc.push c)
    | (none, chs') => .ok (acc, chs')

/-- Code loop of `parse_code_block` (src/parser.rs:227-230). -/
def codeBodyLoop (fuel : Nat) (chs : List Char) (acc : String) :
    PRes (String × List Char) :=
  match fuel with
  | 0 => .nofuel
  | fuel + 1 =>
    match nextCharUntil ['`', '`', '`'] chs with
    | (some c, chs') => codeBodyLoop fuel chs' (acc ++ escape c)
    | (none, chs') => .ok (acc, chs')

/-- `Parser::parse_code_block` (src/parser.rs:222-232), after the opening
triple backtick was consumed. -/
def parseCodeBlock (fuel : Nat) (chs : List Char) : PRes (Block × List Char) :=
  PRes.bind (codeLangLoop fuel chs "") fun lr =>
  PRes.bind (codeBodyLoop fuel lr.2 "") fun cr =>
  .ok (.codeBlock lr.1 cr.1, cr.2)

def trimStartData (l : List Char) : List Char :=
  l.dropWhile Char.isWhitespace

def trimEndData (l : List Char) : List Char :=
  (l.reverse.dropWhile Char.isWhitespace).reverse

/-- Rust `str::trim_start().trim_end()` on an accumulated cell (ASCII
whitespace, which is all the parser can put there). -/
def strTrim (s : String) : String :=
  String.mk (trimEndData (trimStartData s.data))

/-- The separator test of `parse_table_row` (src/parser.rs:263): every cell
consists entirely of `-` characters. -/
def allDashRow (row : List String) : Bool :=
  row.all fun s => s.data.all fun c => c = '-'

/-- Cell loop of `parse_table_row` (src/parser.rs:254-260): escaped
characters until a `|` is consumed or the input ends. -/
def tableCellLoop (fuel : Nat) (chs : List Char) (acc : String) :
    PRes (String × List Char) :=
  match fuel with
  | 0 => .nofuel
  | fuel + 1 =>
    match nextChar chs with
    | (some c, chs') =>
      if c = '|' then .ok (acc, chs')
      else tableCellLoop fuel chs' (acc ++ escape c)
    | (none, chs') => .ok (acc, chs')

/-- Row loop of `parse_table_row` (src/parser.rs:251-262): trimmed cells until
end of input or a consumed line ending. -/
def tableRowGo (fuel : Nat) (chs : List Char) (acc : List String) :
    PRes (List String × List Char) :=
  match fuel with
  | 0 => .nofuel
  | fuel + 1 =>
    if chs.isEmpty then .ok (acc, chs)
    else
      let nl := startsWithNewlineNext chs
      if nl.1 then .ok (acc, nl.2)
      else
        PRes.bind (tableCellLoop fuel chs "") fun cr =>
          tableRowGo fuel cr.2 (acc ++ [strTrim cr.1])

/-- `Parser::parse_table_row` (src/parser.rs:246-267): `none` when the line
does not start with `|` or when the row is an all-dash separator (which is
still consumed). -/
def parseTableRow (fuel : Nat) (chs : List Char) :
    PRes (Option (List String) × List Char) :=
  let r := startsWithNext ['|'] chs
  if r.1 then
    PRes.bind (tableRowGo fuel r.2 []) fun rr =>
      if allDashRow rr.1 then .ok (none, rr.2) else .ok (some rr.1, rr.2)
  else .ok (none, chs)

/-- Row-group loop of `parse_table` (src/parser.rs:237-242). -/
def tableRowsLoop (fuel : Nat) (chs : List Char) (acc : List (List String)) :
    PRes (List (List String) × List Char) :=
  match fuel with
  | 0 => .nofuel
  | fuel + 1 =>
    PRes.bind (parseTableRow fuel chs) fun rr =>
      match rr.1 with
      | some row => tableRowsLoop fuel rr.2 (acc ++ [row])
      | none => .ok (acc, rr.2)

/-- `Parser::parse_table` (src/parser.rs:234-244). -/
def parseTable (fuel : Nat) (chs : List Char) : PRes (Block × List Char) :=
  PRes.bind (tableRowsLoop fuel chs []) fun hr =>
  PRes.bind (tableRowsLoop fuel hr.2 []) fun br =>
  .ok (.table hr.1 br.1, br.2)

/-- `Parser::parse_paragraph` (src/parser.rs:269-271). -/
def parseParagraph (R : Resolver) (fuel : Nat) (chs : List Char) :
    PRes (Block × List Char) :=
  PRes.bind (parseSpans R fuel chs) fun sr => .ok (.paragraph sr.1, sr.2)

/-! ## Block dispatch and document loop (src/parser.rs:36-99) -/

/-- `Parser::parse_block` (src/parser.rs:46-99): first literal match wins.
Every branch except the header branch leaves the assembler state other than
the buffer untouched. -/
def parseBlock (R : Resolver) (fuel : Nat) (st : PState) :
    PRes (Block × PState) :=
  if (startsWithNext ['#', ' '] st.chs).1 then
    parseHeader R fuel 1 { st with chs := (startsWithNext ['#', ' '] st.chs).2 }
  else if (startsWithNext ['#', '#', ' '] st.chs).1 then
    parseHeader R fuel 2
      { st with chs := (startsWithNext ['#', '#', ' '] st.chs).2 }
  else if (startsWithNext ['#', '#', '#', ' '] st.chs).1 then
    parseHeader R fuel 3
      { st with chs := (startsWithNext ['#', '#', '#', ' '] st.chs).2 }
  else if (startsWithNext ['#', '#', '#', '#', ' '] st.chs).1 then
    parseHeader R fuel 4
      { st with chs := (startsWithNext ['#', '#', '#', '#', ' '] st.chs).2 }
  else if (startsWithNext ['#', '#', '#', '#', '#', ' '] st.chs).1 then
    parseHeader R fuel 5
      { st with chs := (startsWithNext ['#', '#', '#', '#', '#', ' '] st.chs).2 }
  else if (startsWithNext ['#', '#', '#', '#', '#', '#', ' '] st.chs).1 then
    parseHeader R fuel 6
      { st with
        chs := (startsWithNext ['#', '#', '#', '#', '#', '#', ' '] st.chs).2 }
  else if startsWith ['>', ' '] st.chs then
    PRes.bind (parseBlockquoteGo R fuel st.chs []) fun br =>
      .ok (.blockquote br.1, { st with chs := br.2 })
  else if startsWith ['-', ' '] st.chs || startsWith ['+', ' '] st.chs then
    PRes.bind (parseList R fuel 0 st.chs) fun lr =>
      .ok (.listElement lr.1, { st with chs := lr.2 })
  else if (startsWithNext ['@', '['] st.chs).1 then
    PRes.bind (parseEmbed R fuel (startsWithNext ['@', '['] st.chs).2) fun er =>
      .ok (er.1, { st with chs := er.2 })
  else if (startsWithNext ['$', '$'] st.chs).1 then
    PRes.bind (mathBlockLoop fuel (startsWithNext ['$', '$'] st.chs).2 "")
      fun mr => .ok (mr.1, { st with chs := mr.2 })
  else if (startsWithNext ['`', '`', '`'] st.chs).1 then
    PRes.bind (parseCodeBlock fuel (startsWithNext ['`', '`', '`'] st.chs).2)
      fun cr => .ok (cr.1, { st with chs := cr.2 })
  else if startsWith ['|'] st.chs then
    PRes.bind (parseTable fuel st.chs) fun tr =>
      .ok (tr.1, { st with chs := tr.2 })
  else
    PRes.bind (parseParagraph R fuel st.chs) fun pr =>
      .ok (pr.1, { st with chs := pr.2 })

/-- The empty-paragraph guard of `parse_markdown` (src/parser.rs:40). -/
def isEmptyParagraph : Block → Bool
  | .paragraph [] => true
  | _ => false

/-- Loop of `Parser::parse_markdown` (src/parser.rs:36-44): blocks until the
buffer is empty, discarding empty paragraphs. -/
def parseMarkdownLoop (R : Resolver) (fuel : Nat) (st : PState) :
    PRes PState :=
  match fuel with
  | 0 => .nofuel
  | fuel + 1 =>
    if st.chs.isEmpty then .ok st
    else
      PRes.bind (parseBlock R fuel st) fun br =>
        let st' :=
          if isEmptyParagraph br.1 then br.2
          else { br.2 with content := br.2.content ++ [br.1] }
        parseMarkdownLoop R fuel st'

/-- Initial parser state (`Parser::new`, src/parser.rs:26-34). -/
def initState (doc : List Char) : PState :=
  { chs := doc, headers := [], title := "", toc := .mk true [],
    content := [] }

/-- The crate-level entry point `parse_markdown` (src/parser.rs:11-15),
returning the final assembler state (title, TOC and content, with the
consumed buffer). -/
def parseMarkdown (R : Resolver) (fuel : Nat) (doc : List Char) :
    PRes PState :=
  parseMarkdownLoop R fuel (initState doc)

/-! ## Observers used to state the verified properties -/

/-- Resolver stub returning the title `"Example"` for every URL (spec
section 8's round-trip test). -/
def stubResolver : Resolver :=
  { title := fun _ => "Example", ogp := fun _ => ("", none, none, none) }

/-- The id of a block when it is a level-1 header. -/
def l1Id : Block → Option String
  | .header _ level id => if level = 1 then some id else none
  | _ => none

def l1Ids (bs : List Block) : List String :=
  bs.filterMap l1Id

/-- The id of the last level-1 header of a block sequence, if any. -/
def lastL1 (bs : List Block) : Option String :=
  (l1Ids bs).getLast?

/-- The ids of all header blocks of a block sequence. -/
def headerIds (bs : List Block) : List String :=
  bs.filterMap fun b =>
    match b with
    | .header _ _ id => some id
    | _ => none

/-- The id assignment of a whole sequence of heading base texts, folding
`dedupStep` through the registry. -/
def dedupIds (m : List String) : List String → List String
  | [] => []
  | b :: bs =>
    let r := dedupStep m b
    r.1 :: dedupIds r.2 bs

/-- Descending a TOC tree through the last item's child list, `n` levels
deep. -/
def lastDescend : MList → Nat → Option MList
  | l, 0 => some l
  | l, n + 1 =>
    match l.items.getLast? with
    | none => none
    | some last => lastDescend last.list n

/-! ## Theorems -/

/-- C8: parsing the table `"|h1|h2|\n|-|-|\n|v1|v2|\n"` yields head rows
`[["h1","h2"]]` and body rows `[["v1","v2"]]`; the all-dash separator row is
dropped (its line still consumed) and switches collection from the header
section to the body section. -/
theorem c8_table_separator_filtering :
    parseMarkdown emptyResolver 200 ("|h1|h2|\n|-|-|\n|v1|v2|\n".data) =
      .ok { chs := [], headers := [], title := "", toc := .mk true [],
            content := [.table [["h1", "h2"]] [["v1", "v2"]]] } := rfl

theorem c10_helper_kept_rows_not_all_dash (fuel : Nat) (chs : List Char)
    (row : List String) (rest : List Char)
    (h : parseTableRow fuel chs = .ok (some row, rest)) :
    allDashRow row = false := by
  unfold parseTableRow at h
  by_cases hp : (startsWithNext ['|'] chs).1
  · rw [if_pos hp] at h
    cases hg : tableRowGo fuel (startsWithNext ['|'] chs).2 [] with
    | ok rr =>
      rw [hg] at h
      by_cases hd : allDashRow rr.1
      · simp [PRes.bind, hd] at h
      · simp [PRes.bind, hd] at h
        rw [← h.1]
        exact Bool.not_eq_true _ |>.mp hd
    | panic => rw [hg] at h; simp [PRes.bind] at h
    | nofuel => rw [hg] at h; simp [PRes.bind] at h
  · rw [if_neg hp] at h
    simp at h

/-- C10: a table row whose cells are all empty (a line containing only `|`
characters) passes the all-dash separator test vacuously, so it is dropped
and ends the current row group instead of being kept as a row of empty
cells; and in general a kept row is never all-dash. -/
theorem c10_empty_cells_row_is_separator :
    parseMarkdown emptyResolver 200 ("|h|\n||\n|b|\n".data) =
      .ok { chs := [], headers := [], title := "", toc := .mk true [],
            content := [.table [["h"]] [["b"]]] } ∧
    ∀ (fuel : Nat) (chs : List Char) (row : List String) (rest : List Char),
      parseTableRow fuel chs = .ok (some row, rest) →
      allDashRow row = false :=
  ⟨rfl, c10_helper_kept_rows_not_all_dash⟩

theorem c10_empty_cells_row_is_separator_witness :
    allDashRow ["x"] = false :=
  c10_empty_cells_row_is_separator.2 50 ("|x|\n".data) ["x"] [] rfl

/-- C2 counterexample: the input `"### a\n"` (a level-3 heading with no
preceding level-2 heading) drives the TOC descent into
`items.last_mut().unwrap()` on an empty item list, so parsing panics instead
of producing a best-effort document. -/
theorem c2_counterexample_level3_panics :
    parseMarkdown emptyResolver 100 ("### a\n".data) = .panic := rfl

/-- C2 amended: for a level-2 heading the TOC-descent step performs no
descent and never reaches the failing unwrap; for deeper headings the unwrap
fails exactly when a descended level has no last item, as the counterexample
shows. -/
theorem c2_amended_level2_insert_never_fails (l : MList) (item : MListItem) :
    ∃ l', tocInsert l 2 item = .ok l' :=
  ⟨.mk l.ordered (l.items ++ [item]), rfl⟩

/-- C3 counterexample: the document `"## a-1\n## a\n## a\n"` produces the
heading ids `a-1`, `a`, `a-1`: the second repeat of base `a` collides with
the heading whose literal text is `a-1`, so the produced ids are not pairwise
distinct. -/
theorem c3_counterexample_duplicate_ids :
    (match parseMarkdown emptyResolver 300 ("## a-1\n## a\n## a\n".data) with
     | .ok st => headerIds st.content
     | _ => ([] : List String)) = ["a-1", "a", "a-1"] ∧
    ¬ (["a-1", "a", "a-1"] : List String).Nodup :=
  ⟨rfl, by decide⟩

theorem c3_helper_dedupIds_split (pre : List String) :
    ∀ (m : List String) (b : String) (post : List String), ∃ rest,
      dedupIds m (pre ++ b :: post) =
        dedupIds m pre ++
          (if m.count b + pre.count b > 0 then
            b ++ "-" ++ Nat.repr (m.count b + pre.count b)
           else b) :: rest := by
  induction pre with
  | nil =>
    intro m b post
    refine ⟨dedupIds (b :: m) post, ?_⟩
    simp [dedupIds, dedupStep, multisetInsert]
  | cons p pre ih =>
    intro m b post
    obtain ⟨rest, hrest⟩ := ih (p :: m) b post
    refine ⟨rest, ?_⟩
    have hc : (p :: m).count b + pre.count b = m.count b + (p :: pre).count b := by
      rw [List.count_cons, List.count_cons]
      omega
    calc dedupIds m ((p :: pre) ++ b :: post)
        = (dedupStep m p).1 :: dedupIds (p :: m) (pre ++ b :: post) := by
          simp [dedupIds, dedupStep, multisetInsert]
      _ = (dedupStep m p).1 :: (dedupIds (p :: m) pre ++
            (if m.count b + (p :: pre).count b > 0 then
              b ++ "-" ++ Nat.repr (m.count b + (p :: pre).count b)
             else b) :: rest) := by rw [hrest, hc]
      _ = dedupIds m (p :: pre) ++
            (if m.count b + (p :: pre).count b > 0 then
              b ++ "-" ++ Nat.repr (m.count b + (p :: pre).count b)
             else b) :: rest := by
          simp [dedupIds, dedupStep, multisetInsert]

/-- C3 amended: in the sequence of ids assigned to the heading base texts of
a document, the occurrence of a base `b` preceded by `n > 0` earlier
occurrences of `b` is assigned `b-n` (the first occurrence is assigned `b`
unsuffixed); pairwise distinctness of all produced ids does not hold in
general, as the counterexample shows. -/
theorem c3_amended_nth_repeat_gets_suffix (pre post : List String)
    (b : String) :
    ∃ rest,
      dedupIds [] (pre ++ b :: post) =
        dedupIds [] pre ++
          (if pre.count b > 0 then b ++ "-" ++ Nat.repr (pre.count b)
           else b) :: rest := by
  obtain ⟨rest, hrest⟩ := c3_helper_dedupIds_split pre [] b post
  refine ⟨rest, ?_⟩
  simpa using hrest

theorem c5_helper_tocInsertGo_ok (n : Nat) :
    ∀ (l sub : MList) (item : MListItem),
      lastDescend l n = some sub →
      ∃ l', tocInsertGo l n item = .ok l' ∧
        lastDescend l' n = some (.mk sub.ordered (sub.items ++ [item])) := by
  induction n with
  | zero =>
    intro l sub item h
    have hl : l = sub := by simpa [lastDescend] using h
    subst hl
    exact ⟨.mk l.ordered (l.items ++ [item]), rfl, by simp [lastDescend]⟩
  | succ n ih =>
    intro l sub item h
    unfold lastDescend at h
    cases hlast : l.items.getLast? with
    | none => rw [hlast] at h; exact absurd h (by simp)
    | some last =>
      rw [hlast] at h
      obtain ⟨r', hr', hdesc⟩ := ih last.list sub item h
      refine ⟨.mk l.ordered (l.items.dropLast ++ [.mk last.spans r']), ?_, ?_⟩
      · unfold tocInsertGo
        simp only [hlast, hr']
      · show lastDescend (MList.mk l.ordered
          (l.items.dropLast ++ [MListItem.mk last.spans r'])) (n + 1) = _
        unfold lastDescend
        rw [show (MList.mk l.ordered
              (l.items.dropLast ++ [MListItem.mk last.spans r'])).items
            = l.items.dropLast ++ [MListItem.mk last.spans r'] from rfl]
        rw [List.getLast?_concat]
        exact hdesc

/-- C5: for a heading of level `L ≥ 2` whose TOC descent (through the last
item's child list at each level, which is what the headings-in-order
assumption guarantees exists) succeeds, the new TOC entry is appended exactly
`L - 2` levels below the TOC root. -/
theorem c5_toc_entry_depth (level : Nat) (l sub : MList) (item : MListItem)
    (hlevel : 2 ≤ level) (hdesc : lastDescend l (level - 2) = some sub) :
    ∃ l', tocInsert l level item = .ok l' ∧
      lastDescend l' (level - 2) =
        some (.mk sub.ordered (sub.items ++ [item])) :=
  c5_helper_tocInsertGo_ok (level - 2) l sub item hdesc

theorem c5_toc_entry_depth_witness :
    ∃ l', tocInsert (MList.mk true [MListItem.mk [] (MList.mk true [])]) 3
            (MListItem.mk [] (MList.mk true [])) = .ok l' ∧
      lastDescend l' 1 =
        some (MList.mk true [MListItem.mk [] (MList.mk true [])]) :=
  c5_toc_entry_depth 3 (MList.mk true [MListItem.mk [] (MList.mk true [])])
    (MList.mk true []) (MListItem.mk [] (MList.mk true [])) (by decide) rfl

theorem c6_helper_link_text_nonempty (R : Resolver) (fuel : Nat)
    (chs : List Char) (t : List Prim) (u : String) (rest : List Char)
    (h : parseLink R fuel chs = .ok (.link t u, rest)) : t ≠ [] := by
  unfold parseLink at h
  cases htl : linkTextLoop fuel chs [] with
  | ok tr =>
    rw [htl] at h
    simp only [PRes.bind] at h
    cases hul : linkUrlLoop fuel tr.2 "" with
    | ok ur =>
      rw [hul] at h
      simp only [PRes.bind, PRes.ok.injEq, Prod.mk.injEq, Prim.link.injEq]
        at h
      by_cases he : tr.1.isEmpty
      · rw [if_pos he] at h
        rw [← h.1.1]
        simp
      · rw [if_neg he] at h
        rw [← h.1.1]
        intro hnil
        exact he (by simp [hnil])
    | panic => rw [hul] at h; exact absurd h (by simp [PRes.bind])
    | nofuel => rw [hul] at h; exact absurd h (by simp [PRes.bind])
  | panic => rw [htl] at h; exact absurd h (by simp [PRes.bind])
  | nofuel => rw [htl] at h; exact absurd h (by simp [PRes.bind])

/-- C6: the empty bracket pair `[](http://example.com)` with a resolver stub
returning `"Example"` parses to
`Link{text:[Text "Example"], url:"http://example.com"}` (the resolver's
title is substituted as a single `Text` primitive), and in general a `Link`
node returned by the link parser never has an empty text list. -/
theorem c6_empty_link_text_resolved :
    parseLink stubResolver 100 ("](http://example.com)".data) =
      .ok (.link [.text "Example"] "http://example.com", []) ∧
    ∀ (R : Resolver) (fuel : Nat) (chs : List Char) (t : List Prim)
      (u : String) (rest : List Char),
      parseLink R fuel chs = .ok (.link t u, rest) → t ≠ [] :=
  ⟨rfl, c6_helper_link_text_nonempty⟩

theorem c6_empty_link_text_resolved_witness :
    ([Prim.text "Example"] : List Prim) ≠ [] :=
  c6_empty_link_text_resolved.2 stubResolver 100
    ("](http://example.com)".data) [Prim.text "Example"] "http://example.com"
    [] rfl

theorem parsePrimary_rbracket (R : Resolver) (f : Nat) :
    parsePrimary R f [']'] = .nofuel ∨
    parsePrimary R f [']'] = .ok (Prim.text "", [']']) := by
  cases f with
  | zero => exact Or.inl rfl
  | succ g => exact Or.inr rfl

theorem spansGo_rbracket (R : Resolver) (f : Nat) :
    ∀ acc, parseSpansGo R f [']'] acc = .nofuel := by
  induction f with
  | zero => intro acc; rfl
  | succ f ih =>
    intro acc
    show PRes.bind (parsePrimary R f [']'])
      (fun pr => parseSpansGo R f pr.2 (acc ++ [.primElem pr.1])) = .nofuel
    rcases parsePrimary_rbracket R f with h | h
    · rw [h]; rfl
    · rw [h]
      exact ih (acc ++ [.primElem (Prim.text "")])

theorem parseBlock_rbracket (R : Resolver) (f : Nat) :
    parseBlock R f (initState [']']) = .nofuel := by
  have h := spansGo_rbracket R f []
  show PRes.bind (PRes.bind (parseSpansGo R f [']'] [])
    (fun sr => PRes.ok (Block.paragraph sr.1, sr.2))) _ = .nofuel
  rw [h]; rfl

/-- C1: refuted (code bug): on the one-character input `"]"` the parser never
terminates, whatever the available fuel: `parse_text` yields an empty `Text`
without consuming anything when the buffer starts with `]`, and the
`parse_spans` loop retries forever. -/
theorem c1_rbracket_diverges (R : Resolver) (fuel : Nat) :
    parseMarkdown R fuel ("]".data) = .nofuel := by
  cases fuel with
  | zero => rfl
  | succ f =>
    show PRes.bind (parseBlock R f (initState [']'])) _ = .nofuel
    rw [parseBlock_rbracket R f]; rfl

theorem parseItalic_nil (R : Resolver) (f : Nat) :
    parseItalic R f [] = .nofuel ∨
    parseItalic R f [] = .ok (Span.primElem (Prim.text ""), []) := by
  match f with
  | 0 => exact Or.inl rfl
  | 1 => exact Or.inl rfl
  | g + 2 => exact Or.inr rfl

theorem boldLoop_nil (R : Resolver) (f : Nat) :
    ∀ acc, boldLoop R f [] acc = .nofuel := by
  induction f with
  | zero => intro acc; rfl
  | succ f ih =>
    intro acc
    show PRes.bind (parseItalic R f [])
      (fun pr => boldLoop R f pr.2 (acc ++ [pr.1])) = .nofuel
    rcases parseItalic_nil R f with h | h
    · rw [h]; rfl
    · rw [h]
      exact ih (acc ++ [Span.primElem (Prim.text "")])

theorem spansGo_bold_eof (R : Resolver) (f : Nat) (acc : List Span) :
    parseSpansGo R f ['*', '*'] acc = .nofuel := by
  match f with
  | 0 => rfl
  | 1 => rfl
  | g + 2 =>
    show PRes.bind (parseBold R (g + 1) ['*', '*'])
      (fun pr => parseSpansGo R (g + 1) pr.2 (acc ++ [pr.1])) = .nofuel
    have hb : parseBold R (g + 1) ['*', '*'] = .nofuel := by
      show boldLoop R g [] [] = .nofuel
      exact boldLoop_nil R g []
    rw [hb]; rfl

/-- C4: refuted (code bug): an emphasis construct opened at the end of input
does not close leniently; on the input `"**"` (bold opened, input exhausted)
the `parse_bold` loop never observes end of input and the parser never
terminates, whatever the available fuel. -/
theorem c4_open_bold_diverges (R : Resolver) (fuel : Nat) :
    parseMarkdown R fuel ("**".data) = .nofuel := by
  cases fuel with
  | zero => rfl
  | succ f =>
    have hb : parseBlock R f (initState ['*', '*']) = .nofuel := by
      have h := spansGo_bold_eof R f []
      show PRes.bind (PRes.bind (parseSpansGo R f ['*', '*'] [])
        (fun sr => PRes.ok (Block.paragraph sr.1, sr.2))) _ = .nofuel
      rw [h]; rfl
    show PRes.bind (parseBlock R f (initState ['*', '*'])) _ = .nofuel
    rw [hb]; rfl

theorem pbind_ok {α β : Type} {x : PRes α} {f : α → PRes β} {r : β}
    (h : PRes.bind x f = .ok r) : ∃ a, x = .ok a ∧ f a = .ok r := by
  cases x with
  | ok a => exact ⟨a, rfl, h⟩
  | panic => exact absurd h (by simp [PRes.bind])
  | nofuel => exact absurd h (by simp [PRes.bind])

theorem isEmptyParagraph_iff (b : Block) :
    isEmptyParagraph b = true ↔ b = .paragraph [] := by
  cases b with
  | paragraph spans => cases spans <;> simp [isEmptyParagraph]
  | header prims level id => simp [isEmptyParagraph]
  | blockquote lines => simp [isEmptyParagraph]
  | listElement l => simp [isEmptyParagraph]
  | image t u => simp [isEmptyParagraph]
  | linkCard t i u d s => simp [isEmptyParagraph]
  | mathBlock m => simp [isEmptyParagraph]
  | codeBlock l c => simp [isEmptyParagraph]
  | table hd bd => simp [isEmptyParagraph]

theorem getLast?_cons_eq {α : Type} (a : α) (l : List α) :
    (a :: l).getLast? = some (l.getLast?.getD a) := by
  induction l generalizing a with
  | nil => rfl
  | cons x xs ih => rw [List.getLast?_cons_cons, ih x]; cases xs.getLast? <;> simp

theorem mathBlockLoop_shape (f : Nat) :
    ∀ (chs : List Char) (acc : String) (b : Block) (rest : List Char),
      mathBlockLoop f chs acc = .ok (b, rest) → ∃ m, b = .mathBlock m := by
  induction f with
  | zero =>
    intro chs acc b rest h
    exact absurd h (by simp [mathBlockLoop])
  | succ f ih =>
    intro chs acc b rest h
    rw [mathBlockLoop] at h
    split at h
    · exact ih _ _ _ _ h
    · simp only [PRes.ok.injEq, Prod.mk.injEq] at h
      exact ⟨acc, h.1.symm⟩

theorem parseEmbed_shape (R : Resolver) (f : Nat) (chs : List Char)
    (b : Block) (rest : List Char) (h : parseEmbed R f chs = .ok (b, rest)) :
    l1Id b = none := by
  unfold parseEmbed at h
  obtain ⟨tr, _, h⟩ := pbind_ok h
  obtain ⟨ur, _, h⟩ := pbind_ok h
  split at h
  · simp only [PRes.ok.injEq, Prod.mk.injEq] at h
    rw [← h.1]
    rfl
  · split at h
    simp only [PRes.ok.injEq, Prod.mk.injEq] at h
    rw [← h.1]
    rfl

theorem parseHeader_state (R : Resolver) (f : Nat) (level : Nat) (st : PState)
    (b : Block) (st' : PState) (h : parseHeader R f level st = .ok (b, st')) :
    st'.content = st.content ∧
      ((level = 1 ∧ ∃ prims id, b = .header prims 1 id ∧ st'.title = id) ∨
       (¬ level = 1 ∧ st'.title = st.title ∧
        ∃ prims id, b = .header prims level id)) := by
  unfold parseHeader at h
  obtain ⟨cr, _, h⟩ := pbind_ok h
  simp only at h
  by_cases hl : level = 1
  · rw [if_pos hl] at h
    simp only [PRes.ok.injEq, Prod.mk.injEq] at h
    obtain ⟨hb, hst⟩ := h
    rw [← hst]
    exact ⟨rfl, Or.inl ⟨hl, cr.1, headerIdOf (headerTocOf cr.1),
      hb.symm, rfl⟩⟩
  · rw [if_neg hl] at h
    cases ht : tocInsert st.toc level
        (.mk [.primElem (.link (headerTocOf cr.1)
          ("#" ++ (dedupStep st.headers (headerIdOf (headerTocOf cr.1))).1))]
          (.mk true [])) with
    | ok toc' =>
      rw [ht] at h
      simp only [PRes.ok.injEq, Prod.mk.injEq] at h
      obtain ⟨hb, hst⟩ := h
      rw [← hst]
      exact ⟨rfl, Or.inr ⟨hl, rfl, cr.1,
        (dedupStep st.headers (headerIdOf (headerTocOf cr.1))).1, hb.symm⟩⟩
    | panic => rw [ht] at h; exact absurd h (by simp)
    | nofuel => rw [ht] at h; exact absurd h (by simp)

theorem parseCodeBlock_shape (f : Nat) (chs : List Char) (b : Block)
    (rest : List Char) (h : parseCodeBlock f chs = .ok (b, rest)) :
    ∃ lang code, b = .codeBlock lang code := by
  unfold parseCodeBlock at h
  obtain ⟨lr, _, h⟩ := pbind_ok h
  obtain ⟨cr, _, h⟩ := pbind_ok h
  simp only [PRes.ok.injEq, Prod.mk.injEq] at h
  exact ⟨lr.1, cr.1, h.1.symm⟩

theorem parseTable_shape (f : Nat) (chs : List Char) (b : Block)
    (rest : List Char) (h : parseTable f chs = .ok (b, rest)) :
    ∃ hd bd, b = .table hd bd := by
  unfold parseTable at h
  obtain ⟨hr, _, h⟩ := pbind_ok h
  obtain ⟨br, _, h⟩ := pbind_ok h
  simp only [PRes.ok.injEq, Prod.mk.injEq] at h
  exact ⟨hr.1, br.1, h.1.symm⟩

theorem parseParagraph_shape (R : Resolver) (f : Nat) (chs : List Char)
    (b : Block) (rest : List Char)
    (h : parseParagraph R f chs = .ok (b, rest)) :
    ∃ spans, b = .paragraph spans := by
  unfold parseParagraph at h
  obtain ⟨sr, _, h⟩ := pbind_ok h
  simp only [PRes.ok.injEq, Prod.mk.injEq] at h
  exact ⟨sr.1, h.1.symm⟩

theorem parseBlock_state (R : Resolver) (f : Nat) (st : PState) (b : Block)
    (st' : PState) (h : parseBlock R f st = .ok (b, st')) :
    st'.content = st.content ∧
      ((∃ prims id, b = .header prims 1 id ∧ st'.title = id) ∨
       (l1Id b = none ∧ st'.title = st.title)) := by
  delta parseBlock at h
  by_cases c1 : (startsWithNext ['#', ' '] st.chs).1 = true
  · rw [if_pos c1] at h
    obtain ⟨hc, hd⟩ := parseHeader_state R f 1 _ b st' h
    refine ⟨hc, ?_⟩
    rcases hd with ⟨_, prims, id, hb, ht⟩ | ⟨hne, _⟩
    · exact Or.inl ⟨prims, id, hb, ht⟩
    · exact absurd rfl hne
  · rw [if_neg c1] at h
    by_cases c2 : (startsWithNext ['#', '#', ' '] st.chs).1 = true
    · rw [if_pos c2] at h
      obtain ⟨hc, hd⟩ := parseHeader_state R f 2 _ b st' h
      refine ⟨hc, ?_⟩
      rcases hd with ⟨hl, _⟩ | ⟨_, ht, prims, id, hb⟩
      · exact absurd hl (by decide)
      · exact Or.inr ⟨by rw [hb]; rfl, ht⟩
    · rw [if_neg c2] at h
      by_cases c3 : (startsWithNext ['#', '#', '#', ' '] st.chs).1 = true
      · rw [if_pos c3] at h
        obtain ⟨hc, hd⟩ := parseHeader_state R f 3 _ b st' h
        refine ⟨hc, ?_⟩
        rcases hd with ⟨hl, _⟩ | ⟨_, ht, prims, id, hb⟩
        · exact absurd hl (by decide)
        · exact Or.inr ⟨by rw [hb]; rfl, ht⟩
      · rw [if_neg c3] at h
        by_cases c4 : (startsWithNext ['#', '#', '#', '#', ' '] st.chs).1 = true
        · rw [if_pos c4] at h
          obtain ⟨hc, hd⟩ := parseHeader_state R f 4 _ b st' h
          refine ⟨hc, ?_⟩
          rcases hd with ⟨hl, _⟩ | ⟨_, ht, prims, id, hb⟩
          · exact absurd hl (by decide)
          · exact Or.inr ⟨by rw [hb]; rfl, ht⟩
        · rw [if_neg c4] at h
          by_cases c5 :
            (startsWithNext ['#', '#', '#', '#', '#', ' '] st.chs).1 = true
          · rw [if_pos c5] at h
            obtain ⟨hc, hd⟩ := parseHeader_state R f 5 _ b st' h
            refine ⟨hc, ?_⟩
            rcases hd with ⟨hl, _⟩ | ⟨_, ht, prims, id, hb⟩
            · exact absurd hl (by decide)
            · exact Or.inr ⟨by rw [hb]; rfl, ht⟩
          · rw [if_neg c5] at h
            by_cases c6 :
              (startsWithNext ['#', '#', '#', '#', '#', '#', ' '] st.chs).1
                = true
            · rw [if_pos c6] at h
              obtain ⟨hc, hd⟩ := parseHeader_state R f 6 _ b st' h
              refine ⟨hc, ?_⟩
              rcases hd with ⟨hl, _⟩ | ⟨_, ht, prims, id, hb⟩
              · exact absurd hl (by decide)
              · exact Or.inr ⟨by rw [hb]; rfl, ht⟩
            · rw [if_neg c6] at h
              by_cases c7 : startsWith ['>', ' '] st.chs = true
              · rw [if_pos c7] at h
                obtain ⟨br, _, h⟩ := pbind_ok h
                simp only [PRes.ok.injEq, Prod.mk.injEq] at h
                obtain ⟨hb, hst⟩ := h
                rw [← hst, ← hb]
                exact ⟨rfl, Or.inr ⟨rfl, rfl⟩⟩
              · rw [if_neg c7] at h
                by_cases c8 : (startsWith ['-', ' '] st.chs ||
                    startsWith ['+', ' '] st.chs) = true
                · rw [if_pos c8] at h
                  obtain ⟨lr, _, h⟩ := pbind_ok h
                  simp only [PRes.ok.injEq, Prod.mk.injEq] at h
                  obtain ⟨hb, hst⟩ := h
                  rw [← hst, ← hb]
                  exact ⟨rfl, Or.inr ⟨rfl, rfl⟩⟩
                · rw [if_neg c8] at h
                  by_cases c9 : (startsWithNext ['@', '['] st.chs).1 = true
                  · rw [if_pos c9] at h
                    obtain ⟨er, her, h⟩ := pbind_ok h
                    simp only [PRes.ok.injEq, Prod.mk.injEq] at h
                    obtain ⟨hb, hst⟩ := h
                    have hnone := parseEmbed_shape R f _ er.1 er.2 her
                    rw [← hst, ← hb]
                    exact ⟨rfl, Or.inr ⟨hnone, rfl⟩⟩
                  · rw [if_neg c9] at h
                    by_cases c10 : (startsWithNext ['$', '$'] st.chs).1 = true
                    · rw [if_pos c10] at h
                      obtain ⟨mr, hmr, h⟩ := pbind_ok h
                      simp only [PRes.ok.injEq, Prod.mk.injEq] at h
                      obtain ⟨hb, hst⟩ := h
                      obtain ⟨m, hm⟩ :=
                        mathBlockLoop_shape f _ "" mr.1 mr.2 hmr
                      rw [← hst, ← hb, hm]
                      exact ⟨rfl, Or.inr ⟨rfl, rfl⟩⟩
                    · rw [if_neg c10] at h
                      by_cases c11 :
                        (startsWithNext ['`', '`', '`'] st.chs).1 = true
                      · rw [if_pos c11] at h
                        obtain ⟨cr, hcr, h⟩ := pbind_ok h
                        simp only [PRes.ok.injEq, Prod.mk.injEq] at h
                        obtain ⟨hb, hst⟩ := h
                        obtain ⟨lang, code, hm⟩ :=
                          parseCodeBlock_shape f _ cr.1 cr.2 hcr
                        rw [← hst, ← hb, hm]
                        exact ⟨rfl, Or.inr ⟨rfl, rfl⟩⟩
                      · rw [if_neg c11] at h
                        by_cases c12 : startsWith ['|'] st.chs = true
                        · rw [if_pos c12] at h
                          obtain ⟨tr, htr, h⟩ := pbind_ok h
                          simp only [PRes.ok.injEq, Prod.mk.injEq] at h
                          obtain ⟨hb, hst⟩ := h
                          obtain ⟨hd, bd, hm⟩ :=
                            parseTable_shape f _ tr.1 tr.2 htr
                          rw [← hst, ← hb, hm]
                          exact ⟨rfl, Or.inr ⟨rfl, rfl⟩⟩
                        · rw [if_neg c12] at h
                          obtain ⟨pr, hpr, h⟩ := pbind_ok h
                          simp only [PRes.ok.injEq, Prod.mk.injEq] at h
                          obtain ⟨hb, hst⟩ := h
                          obtain ⟨spans, hm⟩ :=
                            parseParagraph_shape R f _ pr.1 pr.2 hpr
                          rw [← hst, ← hb, hm]
                          exact ⟨rfl, Or.inr ⟨rfl, rfl⟩⟩

theorem loop_frame (R : Resolver) : ∀ (f : Nat) (st stf : PState),
    parseMarkdownLoop R f st = .ok stf →
    ∃ new, stf.content = st.content ++ new ∧
      stf.title = (lastL1 new).getD st.title := by
  intro f
  induction f with
  | zero =>
    intro st stf h
    exact absurd h (by simp [parseMarkdownLoop])
  | succ f ih =>
    intro st stf h
    rw [parseMarkdownLoop] at h
    by_cases he : st.chs.isEmpty = true
    · rw [if_pos he] at h
      simp only [PRes.ok.injEq] at h
      subst h
      exact ⟨[], by simp, rfl⟩
    · rw [if_neg he] at h
      obtain ⟨br, hbr, h⟩ := pbind_ok h
      simp only [] at h
      obtain ⟨hcont, hdisj⟩ := parseBlock_state R f st br.1 br.2 hbr
      by_cases hp : isEmptyParagraph br.1 = true
      · rw [if_pos hp] at h
        obtain ⟨new, h1, h2⟩ := ih br.2 stf h
        have hb1 : br.1 = .paragraph [] := (isEmptyParagraph_iff br.1).mp hp
        have ht : br.2.title = st.title := by
          rcases hdisj with ⟨prims, id, hbh, _⟩ | ⟨_, ht⟩
          · rw [hb1] at hbh; exact absurd hbh (by simp)
          · exact ht
        exact ⟨new, by rw [h1, hcont], by rw [h2, ht]⟩
      · rw [if_neg hp] at h
        obtain ⟨new, h1, h2⟩ := ih _ stf h
        refine ⟨br.1 :: new, ?_, ?_⟩
        · rw [h1]
          rw [show ({br.2 with content := br.2.content ++ [br.1]} :
                PState).content = br.2.content ++ [br.1] from rfl,
              hcont, List.append_assoc]
          rfl
        · rw [h2]
          rw [show ({br.2 with content := br.2.content ++ [br.1]} :
                PState).title = br.2.title from rfl]
          rcases hdisj with ⟨prims, id, hbh, ht⟩ | ⟨hnone, ht⟩
          · rw [ht, hbh]
            have hli : l1Ids (Block.header prims 1 id :: new) =
                id :: l1Ids new := by
              simp [l1Ids, l1Id]
            rw [lastL1, lastL1, hli, getLast?_cons_eq]
            cases (l1Ids new).getLast? <;> simp
          · rw [ht]
            have hli : l1Ids (br.1 :: new) = l1Ids new := by
              simp [l1Ids, hnone]
            rw [lastL1, lastL1, hli]

/-- C7: the document title is set only by level-1 headings, so after parsing
the title equals the id of the last level-1 heading of the produced content
(and remains the empty string when there is none). -/
theorem c7_title_is_last_level1_id (R : Resolver) (fuel : Nat)
    (doc : List Char) (stf : PState)
    (h : parseMarkdown R fuel doc = .ok stf) :
    stf.title = (lastL1 stf.content).getD "" := by
  obtain ⟨new, h1, h2⟩ := loop_frame R fuel (initState doc) stf h
  rw [h2, h1]
  simp [initState]

theorem c7_title_is_last_level1_id_witness :
    ("t2" : String) =
      (lastL1 [Block.header [Prim.text "t1"] 1 "t1",
               Block.header [Prim.text "t2"] 1 "t2"]).getD "" :=
  c7_title_is_last_level1_id emptyResolver 100 ("# t1\n# t2\n".data)
    { chs := [], headers := [], title := "t2", toc := .mk true [],
      content := [Block.header [Prim.text "t1"] 1 "t1",
                  Block.header [Prim.text "t2"] 1 "t2"] } rfl

theorem loop_paragraphs (R : Resolver) : ∀ (f : Nat) (st stf : PState),
    parseMarkdownLoop R f st = .ok stf →
    (∀ spans, Block.paragraph spans ∈ st.content → spans ≠ []) →
    (∀ spans, Block.paragraph spans ∈ stf.content → spans ≠ []) := by
  intro f
  induction f with
  | zero =>
    intro st stf h _
    exact absurd h (by simp [parseMarkdownLoop])
  | succ f ih =>
    intro st stf h hinv
    rw [parseMarkdownLoop] at h
    by_cases he : st.chs.isEmpty = true
    · rw [if_pos he] at h
      simp only [PRes.ok.injEq] at h
      subst h
      exact hinv
    · rw [if_neg he] at h
      obtain ⟨br, hbr, h⟩ := pbind_ok h
      simp only [] at h
      obtain ⟨hcont, _⟩ := parseBlock_state R f st br.1 br.2 hbr
      by_cases hp : isEmptyParagraph br.1 = true
      · rw [if_pos hp] at h
        exact ih br.2 stf h (by rw [hcont]; exact hinv)
      · rw [if_neg hp] at h
        refine ih _ stf h ?_
        intro spans hmem
        rw [show ({br.2 with content := br.2.content ++ [br.1]} :
              PState).content = br.2.content ++ [br.1] from rfl,
            hcont] at hmem
        rcases List.mem_append.mp hmem with hm | hm
        · exact hinv spans hm
        · have hb : Block.paragraph spans = br.1 := List.mem_singleton.mp hm
          intro hnil
          apply hp
          rw [← hb, hnil]
          rfl

/-- C9: every `Paragraph` block in the output content has a non-empty span
sequence: empty paragraphs produced by blank lines are discarded everywhere
in the document, not only at the end. -/
theorem c9_paragraphs_nonempty (R : Resolver) (fuel : Nat) (doc : List Char)
    (stf : PState) (h : parseMarkdown R fuel doc = .ok stf) :
    ∀ spans, Block.paragraph spans ∈ stf.content → spans ≠ [] :=
  loop_paragraphs R fuel (initState doc) stf h
    (fun spans hm => absurd hm (by simp [initState]))

theorem c9_paragraphs_nonempty_witness :
    ([Span.primElem (Prim.text "a")] : List Span) ≠ [] :=
  c9_paragraphs_nonempty emptyResolver 100 ("a\n\nb\n".data)
    { chs := [], headers := [], title := "", toc := .mk true [],
      content := [Block.paragraph [Span.primElem (Prim.text "a")],
                  Block.paragraph [Span.primElem (Prim.text "b")]] } rfl
    [Span.primElem (Prim.text "a")] (List.Mem.head _)

end Thinknaut
